import Mathlib

/-!
Shallow embedding of `src/mvp.py` (an automated intraday breakout trading
loop) and verification of its specification claims.

Modelling conventions:
* Python floats are modelled as rationals (`ℚ`).
* A per-symbol bar frame (`df`) is modelled by its `close` column, as a
  chronologically ascending `List ℚ` — the only column the program reads.
* Exceptions are modelled by `Except Exn`; the external collaborators
  (market-data client and trading client) are modelled by a `CycleEnv`
  record of the responses they give during one poll cycle.
* Console output is modelled as a trace of `Event`s.
-/

namespace Mvp

/-- Configuration constants of `mvp.py` (the `---------- config ----------`
block).  The loop functions are parameterised over a `Config`; `defaultCfg`
holds the source's literal values. -/
structure Config where
  LOOKBACK : Nat
  DOLLAR_RISK : ℚ
  TP_PCT : ℚ
  SL_PCT : ℚ
  deriving Repr, DecidableEq

/-- The literal configuration of the source file. -/
def defaultCfg : Config :=
  { LOOKBACK := 20
    DOLLAR_RISK := 100
    TP_PCT := 4 / 1000
    SL_PCT := 3 / 1000 }

/-- `SYMBOLS = ["AAPL", "MSFT"]`. -/
def SYMBOLS : List String := ["AAPL", "MSFT"]

/-- `calc_signal(df)` from `mvp.py`, parameterised by the global `LOOKBACK`.
Returns `false` when fewer than `LOOKBACK + 1` bars are available; otherwise
compares the last close against the maximum of the `LOOKBACK` closes
immediately preceding it (`df["close"].iloc[-(LOOKBACK+1):-1].max()`).
An empty slice has maximum `none` (pandas `NaN`), and a comparison against
it is `false`, as in pandas. -/
def calc_signal (LOOKBACK : Nat) (closes : List ℚ) : Bool :=
  if closes.length < LOOKBACK + 1 then false
  else
    match closes.getLast?,
        ((closes.drop (closes.length - (LOOKBACK + 1))).take LOOKBACK).maximum with
    | some last, some rolling_max => decide (rolling_max < last)
    | _, _ => false

/-- `round_qty(price, dollars)` from `mvp.py`:
`0` when `price <= 0`, otherwise `max(int(dollars // price), 0)`
(Python float floor-division, so the quantity is `⌊dollars / price⌋`). -/
def round_qty (price dollars : ℚ) : ℤ :=
  if price ≤ 0 then 0
  else max ⌊dollars / price⌋ 0

/-- A broker position as returned by `trading.get_all_positions()`. -/
structure Position where
  symbol : String
  qty : ℚ
  deriving Repr, DecidableEq

/-- `already_open(sym)` from `mvp.py`, with the broker's position list made
an explicit argument: `any(p.symbol == sym for p in positions)`. -/
def already_open (sym : String) (positions : List Position) : Bool :=
  positions.any fun p => p.symbol == sym

/-- Round a rational to the nearest integer, ties to even — the semantics of
Python's builtin `round`. -/
def pyRoundInt (x : ℚ) : ℤ :=
  if x - ⌊x⌋ < 1 / 2 then ⌊x⌋
  else if 1 / 2 < x - ⌊x⌋ then ⌊x⌋ + 1
  else if ⌊x⌋ % 2 = 0 then ⌊x⌋ else ⌊x⌋ + 1

/-- Python's `round(x, 2)`: round to 2 decimal places, ties to even. -/
def pyRound2 (x : ℚ) : ℚ :=
  (pyRoundInt (100 * x) : ℚ) / 100

/-- `OrderSide` from the alpaca enums (only `BUY` is used). -/
inductive OrderSide
  | buy
  | sell
  deriving Repr, DecidableEq

/-- `TimeInForce` from the alpaca enums (only `DAY` is used). -/
inductive TimeInForce
  | day
  deriving Repr, DecidableEq

/-- `OrderClass` from the alpaca enums (only `BRACKET` is used). -/
inductive OrderClass
  | bracket
  deriving Repr, DecidableEq

/-- The `MarketOrderRequest` built by `place_bracket_market`: a parent
market order with a `TakeProfitRequest(limit_price=…)` and a
`StopLossRequest(stop_price=…)` leg attached. -/
structure MarketOrderRequest where
  symbol : String
  qty : ℤ
  side : OrderSide
  time_in_force : TimeInForce
  order_class : OrderClass
  take_profit_limit_price : ℚ
  stop_loss_stop_price : ℚ
  deriving Repr, DecidableEq

/-- The order request constructed by `place_bracket_market(sym, qty, price)`
in `mvp.py` (the construction part; submission is modelled in the loop):
`take_profit = round(price * (1 + TP_PCT), 2)`,
`stop_loss = round(price * (1 - SL_PCT), 2)`, parent market BUY, DAY,
bracket class. -/
def place_bracket_market (cfg : Config) (sym : String) (qty : ℤ) (price : ℚ) :
    MarketOrderRequest :=
  { symbol := sym
    qty := qty
    side := OrderSide.buy
    time_in_force := TimeInForce.day
    order_class := OrderClass.bracket
    take_profit_limit_price := pyRound2 (price * (1 + cfg.TP_PCT))
    stop_loss_stop_price := pyRound2 (price * (1 - cfg.SL_PCT)) }

/-- The membership test `(sym,) in bars.index.get_level_values(0)` from
`mvp.py`, with the level values (one symbol per row) as a list.  The key is
a 1-tuple probed against a flat Index of strings: on a *unique* level the
engine answers through its hash table, where a tuple never equals a string,
so the test is `false` for every symbol; on a level *with duplicates* the
engine takes its duplicates path, where the 1-tuple behaves like its bare
string and the test is plain membership. -/
def level_contains_tuple (lv : List String) (sym : String) : Bool :=
  if lv.Nodup then false
  else lv.contains sym

/-- `get_latest_bars(symbols)` from `mvp.py`, with the rows of the data
client's multi-indexed frame (`(symbol, close)` per row, chronological per
symbol) made an explicit argument.  Returns `none` when the frame is empty
(`bars.empty`); otherwise a map built by iterating `symbols` and keeping
each symbol whose tuple-key index test succeeds, bound to its rows
(`bars.xs(sym)`).  In particular a frame with exactly one row per present
symbol has a unique level, every tuple test misses, and the map is
empty. -/
def get_latest_bars (symbols : List String) (bars : List (String × ℚ)) :
    Option (List (String × List ℚ)) :=
  if bars.isEmpty then none
  else
    some (symbols.filterMap fun sym =>
      if level_contains_tuple (bars.map Prod.fst) sym then
        some (sym, (bars.filter fun r => r.fst == sym).map Prod.snd)
      else none)

/-- A broker asset row as returned by `trading.get_all_assets(...)`. -/
structure Asset where
  symbol : String
  tradable : Bool
  deriving Repr, DecidableEq

/-- The value `{a.symbol: a.tradable for a in assets}.get(s, False)`:
dict comprehension keeps the LAST asset row per symbol. -/
def tradable_lookup (assets : List Asset) (s : String) : Bool :=
  match assets.reverse.find? (fun a => a.symbol == s) with
  | some a => a.tradable
  | none => false

/-- `ensure_tradable(symbols)` from `mvp.py`, with the broker's asset list
made an explicit argument: the sorted set of the candidate symbols whose
last asset row is tradable. -/
def ensure_tradable (symbols : List String) (assets : List Asset) :
    List String :=
  ((symbols.filter fun s => tradable_lookup assets s).dedup).mergeSort
    (fun a b => a ≤ b)

/-- Python exceptions as they matter to `main`: `KeyboardInterrupt` is not a
subclass of `Exception`, so the two `except` clauses treat it specially. -/
inductive Exn
  | keyboardInterrupt
  | exn (msg : String)
  deriving Repr, DecidableEq

/-- The order object returned by `trading.submit_order` (only the fields
`main` reads: `resp.id` and `resp.status`). -/
structure OrderResp where
  id : String
  status : String
  deriving Repr, DecidableEq

/-- The responses the external collaborators give during one poll cycle:
the data client's rows for `get_stock_bars`, the trading client's position
list at the moment the gate for a given symbol queries it, and the trading
client's response to `submit_order`.  Each call may raise. -/
structure CycleEnv where
  fetch : Except Exn (List (String × ℚ))
  positions : String → Except Exn (List Position)
  submit : MarketOrderRequest → Except Exn OrderResp

/-- One console line of `main`, in print order. -/
inductive Event
  | noTradable
  | starting
  | noBars
  | skipOpen (sym : String)
  | noSignal (sym : String) (last : ℚ)
  | qtyZero (sym : String) (last : ℚ)
  | breakout (sym : String) (qty : ℤ) (last : ℚ)
  | submitted (req : MarketOrderRequest) (resp : OrderResp)
  | errorLogged (msg : String)
  | exiting
  | sleep
  deriving Repr, DecidableEq

/-- The per-instrument body of `main`'s `for sym, df in bars_map.items()`
loop: read the last close, gate on `already_open`, evaluate the signal,
size with `round_qty(last_price, DOLLAR_RISK / SL_PCT)`, and submit a
bracket order.  Returns the events printed and the exception, if any,
escaping this iteration (there is no per-instrument handler in the
source). -/
def step (cfg : Config) (env : CycleEnv) (sym : String) (df : List ℚ) :
    List Event × Option Exn :=
  match df.getLast? with
  | none => ([], some (Exn.exn "single positional indexer is out-of-bounds"))
  | some last_price =>
    match env.positions sym with
    | Except.error e => ([], some e)
    | Except.ok ps =>
      if already_open sym ps then ([Event.skipOpen sym], none)
      else if calc_signal cfg.LOOKBACK df then
        let qty := round_qty last_price (cfg.DOLLAR_RISK / cfg.SL_PCT)
        if qty ≤ 0 then ([Event.qtyZero sym last_price], none)
        else
          let req := place_bracket_market cfg sym qty last_price
          match env.submit req with
          | Except.error e => ([Event.breakout sym qty last_price], some e)
          | Except.ok resp =>
            ([Event.breakout sym qty last_price, Event.submitted req resp],
              none)
      else ([Event.noSignal sym last_price], none)

/-- The instrument loop: iterate `step` over the items of `bars_map`; an
exception in one iteration propagates immediately, abandoning the rest. -/
def run_insts (cfg : Config) (env : CycleEnv) :
    List (String × List ℚ) → List Event × Option Exn
  | [] => ([], none)
  | (sym, df) :: rest =>
    match step cfg env sym df with
    | (evs, some e) => (evs, some e)
    | (evs, none) =>
      let r := run_insts cfg env rest
      (evs ++ r.1, r.2)

/-- The body of `main`'s `try:` block for one cycle: fetch the bars, branch
on `if not bars_map` (both `None` and an empty dict are falsy), run the
instrument loop, then `time.sleep(POLL_SEC)`.  Returns the printed events
and the exception, if any, reaching the cycle boundary. -/
def cycle_body (cfg : Config) (syms : List String) (env : CycleEnv) :
    List Event × Option Exn :=
  match env.fetch with
  | Except.error e => ([], some e)
  | Except.ok bars =>
    match get_latest_bars syms bars with
    | none => ([Event.noBars, Event.sleep], none)
    | some m =>
      if m.isEmpty then ([Event.noBars, Event.sleep], none)
      else
        match run_insts cfg env m with
        | (evs, none) => (evs ++ [Event.sleep], none)
        | (evs, some e) => (evs, some e)

/-- One iteration of `while True:` with its two `except` clauses:
`KeyboardInterrupt` prints `Exiting…` and breaks (second component `true`);
any other `Exception` is logged, the loop sleeps, and iteration
continues. -/
def run_cycle (cfg : Config) (syms : List String) (env : CycleEnv) :
    List Event × Bool :=
  match cycle_body cfg syms env with
  | (evs, none) => (evs, false)
  | (evs, some Exn.keyboardInterrupt) => (evs ++ [Event.exiting], true)
  | (evs, some (Exn.exn msg)) =>
    (evs ++ [Event.errorLogged msg, Event.sleep], false)

/-- The `while True:` loop, driven by the finite stream of per-cycle
collaborator responses we choose to supply. -/
def run_loop (cfg : Config) (syms : List String) :
    List CycleEnv → List Event
  | [] => []
  | env :: rest =>
    let r := run_cycle cfg syms env
    if r.2 then r.1 else r.1 ++ run_loop cfg syms rest

/-- `main()` from `mvp.py`: filter the universe to tradable symbols, return
at once when none remain, otherwise enter the polling loop.  The source
runs this at `defaultCfg`. -/
def main (cfg : Config) (assets : List Asset) (envs : List CycleEnv) :
    List Event :=
  let tradable_syms := ensure_tradable SYMBOLS assets
  if tradable_syms.isEmpty then [Event.noTradable]
  else Event.starting :: run_loop cfg tradable_syms envs

/-- Whether an event is the submission of an order for symbol `s`. -/
def isSubmitFor (s : String) : Event → Bool
  | Event.submitted req _ => req.symbol == s
  | _ => false

/-- Test configuration with a one-bar lookback and whole-number risk
parameters, used to drive the loop on tiny histories. -/
def cexCfg : Config :=
  { LOOKBACK := 1
    DOLLAR_RISK := 4
    TP_PCT := 1
    SL_PCT := 1 }

/-- Cycle fixture: the broker reports an open `"AAPL"` position. -/
def envOpenAAPL : CycleEnv :=
  { fetch := Except.ok [("AAPL", 1), ("AAPL", 2)]
    positions := fun _ => Except.ok [⟨"AAPL", 1⟩]
    submit := fun _ => Except.ok ⟨"oid", "accepted"⟩ }

/-- Cycle fixture: the data-fetch call raises. -/
def envFetchRaises : CycleEnv :=
  { fetch := Except.error (Exn.exn "data fetch failed")
    positions := fun _ => Except.ok []
    submit := fun _ => Except.ok ⟨"oid", "accepted"⟩ }

/-- Cycle fixture: the data client returns an empty frame. -/
def envNoData : CycleEnv :=
  { fetch := Except.ok []
    positions := fun _ => Except.ok []
    submit := fun _ => Except.ok ⟨"oid", "accepted"⟩ }

/-! ## Signal evaluator -/

/-- C5: for every bar history with fewer than `LOOKBACK + 1` bars,
`calc_signal` returns `false` — insufficient data is "no signal", not an
error. -/
theorem calc_signal_insufficient_history (LOOKBACK : Nat) (closes : List ℚ)
    (h : closes.length < LOOKBACK + 1) :
    calc_signal LOOKBACK closes = false := by
  unfold calc_signal
  rw [if_pos h]

/-- Witness for C5 at `LOOKBACK = 20` and a two-bar history. -/
theorem calc_signal_insufficient_history_witness :
    ([10, 11] : List ℚ).length < 20 + 1 ∧ calc_signal 20 [10, 11] = false :=
  ⟨by decide, calc_signal_insufficient_history 20 [10, 11] (by decide)⟩

/-- C2: on a history `pre ++ w ++ [x]` whose window `w` of the `LOOKBACK`
bars immediately preceding the most recent bar has maximum `m`,
`calc_signal` returns `true` iff `m < x` (strict inequality), and in
particular returns `false` when the latest close `x` ties `m`. -/
theorem calc_signal_breakout_iff (LOOKBACK : Nat) (pre w : List ℚ)
    (x m : ℚ) (hw : w.length = LOOKBACK) (hm : w.maximum = some m) :
    (calc_signal LOOKBACK (pre ++ w ++ [x]) = true ↔ m < x) ∧
    (x = m → calc_signal LOOKBACK (pre ++ w ++ [x]) = false) := by
  have hlen : (pre ++ w ++ [x]).length = pre.length + LOOKBACK + 1 := by
    simp [hw]
    omega
  have hval : calc_signal LOOKBACK (pre ++ w ++ [x]) = decide (m < x) := by
    unfold calc_signal
    rw [if_neg (by rw [hlen]; omega)]
    have h2 : (pre ++ w ++ [x]).length - (LOOKBACK + 1) = pre.length := by
      rw [hlen]; omega
    have h3 : (pre ++ w ++ [x]).drop pre.length = w ++ [x] := by
      rw [List.append_assoc]
      exact List.drop_left pre (w ++ [x])
    have h4 : (w ++ [x]).take LOOKBACK = w := by
      rw [← hw]
      exact List.take_left w [x]
    have h5 : (pre ++ w ++ [x]).getLast? = some x := List.getLast?_concat _
    rw [h2, h3, h4, h5, hm]
  refine ⟨by rw [hval]; simp, fun hxm => by rw [hval]; simp [hxm]⟩

/-- Witness for C2: spec Scenario 1 (`lookback = 3`,
`closes = [10, 11, 9, 12]`, prior max `11`, latest `12` → signal) and
Scenario 2 (`closes = [10, 11, 9, 11]`, tie → no signal). -/
theorem calc_signal_breakout_iff_witness :
    calc_signal 3 ([] ++ [10, 11, 9] ++ [12]) = true ∧
    calc_signal 3 ([] ++ [10, 11, 9] ++ [11]) = false :=
  ⟨(calc_signal_breakout_iff 3 [] [10, 11, 9] 12 11 (by decide)
      (by decide)).1.mpr (by decide),
    (calc_signal_breakout_iff 3 [] [10, 11, 9] 11 11 (by decide)
      (by decide)).2 rfl⟩

/-! ## Position sizer -/

/-- C4: for `price > 0` and `riskBudget ≥ 0`, `round_qty` returns the
non-negative integer `⌊riskBudget / price⌋`, which is at most
`riskBudget / price`; for `price ≤ 0` it returns `0`. -/
theorem round_qty_spec (price dollars : ℚ) :
    (0 < price → 0 ≤ dollars →
      round_qty price dollars = ⌊dollars / price⌋ ∧
      0 ≤ round_qty price dollars ∧
      (round_qty price dollars : ℚ) ≤ dollars / price) ∧
    (price ≤ 0 → round_qty price dollars = 0) ∧
    0 ≤ round_qty price dollars := by
  refine ⟨?_, ?_, ?_⟩
  · intro hp hd
    have hq : (0 : ℚ) ≤ dollars / price := div_nonneg hd hp.le
    have hfl : 0 ≤ ⌊dollars / price⌋ := Int.floor_nonneg.mpr hq
    have hval : round_qty price dollars = ⌊dollars / price⌋ := by
      unfold round_qty
      rw [if_neg (not_le.mpr hp)]
      exact max_eq_left hfl
    exact ⟨hval, by rw [hval]; exact hfl, by rw [hval]; exact Int.floor_le _⟩
  · intro hp
    unfold round_qty
    rw [if_pos hp]
  · unfold round_qty
    split_ifs with h
    · exact le_refl 0
    · exact le_max_right _ _

/-- Witness for C4 at `price = 50`, `riskBudget = 200`. -/
theorem round_qty_spec_witness :
    round_qty 50 200 = ⌊(200 : ℚ) / 50⌋ ∧ 0 ≤ round_qty 50 200 ∧
    ((round_qty 50 200 : ℤ) : ℚ) ≤ (200 : ℚ) / 50 :=
  (round_qty_spec 50 200).1 (by decide) (by decide)

/-! ## Order executor -/

/-- Rounding to the nearest integer (ties to even) moves a rational by at
most `1 / 2`. -/
theorem pyRoundInt_dist (x : ℚ) : |(pyRoundInt x : ℚ) - x| ≤ 1 / 2 := by
  have hf1 : (⌊x⌋ : ℚ) ≤ x := Int.floor_le x
  have hf2 : x < ⌊x⌋ + 1 := Int.lt_floor_add_one x
  unfold pyRoundInt
  split_ifs with h1 h2 h3 <;>
    · push_cast
      rw [abs_le]
      constructor <;> linarith

/-- Rounding to two decimal places moves a rational by at most `1 / 200`
(half of the minimum price increment `0.01`). -/
theorem pyRound2_dist (x : ℚ) : |pyRound2 x - x| ≤ 1 / 200 := by
  have h := pyRoundInt_dist (100 * x)
  have heq : pyRound2 x - x = ((pyRoundInt (100 * x) : ℚ) - 100 * x) / 100 := by
    unfold pyRound2
    ring
  rw [heq, abs_div]
  rw [show |(100 : ℚ)| = 100 by norm_num]
  linarith

/-- C7: `place_bracket_market` attaches to one bracket BUY order a
take-profit leg priced `round(price * (1 + TP_PCT), 2)` and a stop-loss leg
priced `round(price * (1 - SL_PCT), 2)`; each leg price sits on the
two-decimal grid within `1 / 200` of the unrounded value. -/
theorem place_bracket_market_spec (cfg : Config) (sym : String) (qty : ℤ)
    (price : ℚ) :
    (place_bracket_market cfg sym qty price).take_profit_limit_price =
      pyRound2 (price * (1 + cfg.TP_PCT)) ∧
    (place_bracket_market cfg sym qty price).stop_loss_stop_price =
      pyRound2 (price * (1 - cfg.SL_PCT)) ∧
    (place_bracket_market cfg sym qty price).side = OrderSide.buy ∧
    (place_bracket_market cfg sym qty price).order_class =
      OrderClass.bracket ∧
    (place_bracket_market cfg sym qty price).symbol = sym ∧
    (place_bracket_market cfg sym qty price).qty = qty ∧
    (∃ n : ℤ, (place_bracket_market cfg sym qty price).take_profit_limit_price
      = (n : ℚ) / 100) ∧
    (∃ n : ℤ, (place_bracket_market cfg sym qty price).stop_loss_stop_price
      = (n : ℚ) / 100) ∧
    |(place_bracket_market cfg sym qty price).take_profit_limit_price -
      price * (1 + cfg.TP_PCT)| ≤ 1 / 200 ∧
    |(place_bracket_market cfg sym qty price).stop_loss_stop_price -
      price * (1 - cfg.SL_PCT)| ≤ 1 / 200 := by
  refine ⟨rfl, rfl, rfl, rfl, rfl, rfl,
    ⟨pyRoundInt (100 * (price * (1 + cfg.TP_PCT))), rfl⟩,
    ⟨pyRoundInt (100 * (price * (1 - cfg.SL_PCT))), rfl⟩, ?_, ?_⟩
  · exact pyRound2_dist _
  · exact pyRound2_dist _

/-! ## Trading loop: per-instrument step -/

/-- Exhaustive case analysis of one per-instrument iteration: it either
raises with no output, logs exactly one non-order line, logs a breakout and
then raises on submission, or logs a breakout followed by exactly one
submitted order for this symbol — the latter only after the gate saw no
open position. -/
theorem step_cases (cfg : Config) (env : CycleEnv) (sym : String)
    (df : List ℚ) :
    (∃ e, step cfg env sym df = ([], some e)) ∨
    step cfg env sym df = ([Event.skipOpen sym], none) ∨
    (∃ p, step cfg env sym df = ([Event.noSignal sym p], none)) ∨
    (∃ p, step cfg env sym df = ([Event.qtyZero sym p], none)) ∨
    (∃ q p e, step cfg env sym df = ([Event.breakout sym q p], some e)) ∨
    (∃ q p resp ps, step cfg env sym df =
        ([Event.breakout sym q p,
          Event.submitted (place_bracket_market cfg sym q p) resp], none) ∧
      env.positions sym = Except.ok ps ∧ already_open sym ps = false) := by
  unfold step
  rcases hg : df.getLast? with _ | p
  · exact Or.inl ⟨_, rfl⟩
  rcases hp : env.positions sym with e | ps
  · exact Or.inl ⟨e, rfl⟩
  rcases ho : already_open sym ps
  · rcases hsig : calc_signal cfg.LOOKBACK df
    · simp only [ho, hsig, Bool.false_eq_true, if_false]
      exact Or.inr (Or.inr (Or.inl ⟨p, rfl⟩))
    · simp only [ho, hsig, Bool.false_eq_true, if_false, if_true]
      by_cases hq : round_qty p (cfg.DOLLAR_RISK / cfg.SL_PCT) ≤ 0
      · simp only [hq, if_true]
        exact Or.inr (Or.inr (Or.inr (Or.inl ⟨p, rfl⟩)))
      · simp only [hq, if_false]
        rcases hs : env.submit
            (place_bracket_market cfg sym
              (round_qty p (cfg.DOLLAR_RISK / cfg.SL_PCT)) p) with e | resp
        · exact Or.inr (Or.inr (Or.inr (Or.inr (Or.inl ⟨_, p, e, rfl⟩))))
        · exact Or.inr (Or.inr (Or.inr (Or.inr (Or.inr
            ⟨_, p, resp, ps, rfl, rfl, ho⟩))))
  · exact Or.inr (Or.inl (by simp [ho]))

/-- An order submitted by `step` carries the symbol being processed, and
only leaves the step after the position gate saw no open position for it. -/
theorem step_submitted_gate (cfg : Config) (env : CycleEnv) (sym : String)
    (df : List ℚ) (req : MarketOrderRequest) (resp : OrderResp)
    (hmem : Event.submitted req resp ∈ (step cfg env sym df).1) :
    req.symbol = sym ∧ ∃ ps, env.positions sym = Except.ok ps ∧
      already_open sym ps = false := by
  rcases step_cases cfg env sym df with ⟨e, hc⟩ | hc | ⟨p, hc⟩ | ⟨p, hc⟩ |
    ⟨q, p, e, hc⟩ | ⟨q, p, resp', ps, hc, hps, ho⟩ <;> rw [hc] at hmem <;>
    simp at hmem
  obtain ⟨hreq, _⟩ := hmem
  subst hreq
  exact ⟨rfl, ps, hps, ho⟩

/-- A submit event for symbol `s` can only come from the step processing
`s` itself. -/
theorem step_submitFor_eq (cfg : Config) (env : CycleEnv) (sym s : String)
    (df : List ℚ) (ev : Event) (hmem : ev ∈ (step cfg env sym df).1)
    (hsub : isSubmitFor s ev = true) : s = sym := by
  cases ev <;> simp only [isSubmitFor, Bool.false_eq_true] at hsub
  rename_i req resp
  have h := (step_submitted_gate cfg env sym df req resp hmem).1
  rw [beq_iff_eq] at hsub
  exact hsub.symm.trans h

/-- One per-instrument step submits at most one order for any symbol. -/
theorem step_filter_le (cfg : Config) (env : CycleEnv) (sym s : String)
    (df : List ℚ) :
    ((step cfg env sym df).1.filter (isSubmitFor s)).length ≤ 1 := by
  rcases step_cases cfg env sym df with ⟨e, hc⟩ | hc | ⟨p, hc⟩ | ⟨p, hc⟩ |
    ⟨q, p, e, hc⟩ | ⟨q, p, resp, ps, hc, hps, ho⟩ <;> rw [hc] <;>
    simp [isSubmitFor, List.filter_cons] <;> split <;> simp

/-- Every event the instrument loop prints comes from the step of some map
entry. -/
theorem run_insts_mem (cfg : Config) (env : CycleEnv)
    (l : List (String × List ℚ)) (ev : Event)
    (hmem : ev ∈ (run_insts cfg env l).1) :
    ∃ sym df, (sym, df) ∈ l ∧ ev ∈ (step cfg env sym df).1 := by
  induction l with
  | nil => simp [run_insts] at hmem
  | cons hd tl ih =>
    obtain ⟨sym, df⟩ := hd
    rcases hs : step cfg env sym df with ⟨evs, oe⟩
    rcases oe with _ | e
    · simp only [run_insts] at hmem
      rw [hs] at hmem
      rcases List.mem_append.mp hmem with h | h
      · exact ⟨sym, df, List.mem_cons_self _ _, by rw [hs]; exact h⟩
      · obtain ⟨sym', df', hmem', hstep'⟩ := ih h
        exact ⟨sym', df', List.mem_cons_of_mem _ hmem', hstep'⟩
    · simp only [run_insts] at hmem
      rw [hs] at hmem
      exact ⟨sym, df, List.mem_cons_self _ _, by rw [hs]; exact hmem⟩

/-- No orders are submitted for a symbol that is not a key of the bars
map. -/
theorem run_insts_filter_zero (cfg : Config) (env : CycleEnv)
    (l : List (String × List ℚ)) (s : String)
    (hnot : s ∉ l.map Prod.fst) :
    ((run_insts cfg env l).1.filter (isSubmitFor s)).length = 0 := by
  rw [List.length_eq_zero, List.filter_eq_nil_iff]
  intro ev hev hsub
  obtain ⟨sym, df, hl, hstep⟩ := run_insts_mem cfg env l ev hev
  have heq : s = sym := step_submitFor_eq cfg env sym s df ev hstep hsub
  subst heq
  exact hnot (List.mem_map_of_mem Prod.fst hl)

/-- When the bars-map keys are distinct, the instrument loop submits at
most one order per symbol. -/
theorem run_insts_filter_le (cfg : Config) (env : CycleEnv)
    (l : List (String × List ℚ)) (s : String)
    (hnd : (l.map Prod.fst).Nodup) :
    ((run_insts cfg env l).1.filter (isSubmitFor s)).length ≤ 1 := by
  induction l with
  | nil => simp [run_insts]
  | cons hd tl ih =>
    obtain ⟨sym, df⟩ := hd
    simp only [List.map_cons, List.nodup_cons] at hnd
    obtain ⟨hsym, hnd'⟩ := hnd
    rcases hs : step cfg env sym df with ⟨evs, oe⟩
    rcases oe with _ | e
    · simp only [run_insts]
      rw [hs]
      simp only [List.filter_append, List.length_append]
      by_cases hss : s = sym
      · subst hss
        have h0 : ((run_insts cfg env tl).1.filter (isSubmitFor s)).length
            = 0 := run_insts_filter_zero cfg env tl s hsym
        have h1 := step_filter_le cfg env s s df
        rw [hs] at h1
        simp only at h1
        omega
      · have h0 : (evs.filter (isSubmitFor s)).length = 0 := by
          rw [List.length_eq_zero, List.filter_eq_nil_iff]
          intro ev hev hsub
          exact hss (step_submitFor_eq cfg env sym s df ev
            (by rw [hs]; exact hev) hsub)
        have h1 := ih hnd'
        omega
    · simp only [run_insts]
      rw [hs]
      have h1 := step_filter_le cfg env sym s df
      rw [hs] at h1
      simpa using h1

/-! ## Bars map -/

/-- A `filterMap` that keeps an element (paired with data) exactly when a
predicate holds has the filtered list as its keys. -/
theorem map_fst_filterMap_keep {β : Type} (p : String → Bool)
    (g : String → β) (l : List String) :
    (l.filterMap fun s => if p s then some (s, g s) else none).map Prod.fst
      = l.filter p := by
  induction l with
  | nil => rfl
  | cons a t ih =>
    by_cases ha : p a <;>
      simp [List.filterMap_cons, List.filter_cons, ha, ih]

/-- The keys of the map built by `get_latest_bars` are exactly the
requested symbols whose tuple-key index test succeeds, in request
order. -/
theorem get_latest_bars_keys (syms : List String) (bars : List (String × ℚ))
    (m : List (String × List ℚ)) (h : get_latest_bars syms bars = some m) :
    m.map Prod.fst =
      syms.filter fun sym => level_contains_tuple (bars.map Prod.fst) sym
    := by
  unfold get_latest_bars at h
  by_cases hb : bars.isEmpty
  · rw [if_pos hb] at h
    exact Option.noConfusion h
  · rw [if_neg hb] at h
    have hm := Option.some.inj h
    subst hm
    exact map_fst_filterMap_keep _ _ syms

/-! ## Trading loop: cycle and loop shape -/

/-- The events of one cycle body: nothing (the fetch raised), the no-data
log plus sleep, or the instrument-loop events (with the trailing sleep when
no exception escaped the instrument loop). -/
theorem cycle_body_events (cfg : Config) (syms : List String)
    (env : CycleEnv) :
    (cycle_body cfg syms env).1 = [] ∨
    (cycle_body cfg syms env).1 = [Event.noBars, Event.sleep] ∨
    ∃ bars m, env.fetch = Except.ok bars ∧
      get_latest_bars syms bars = some m ∧
      ((cycle_body cfg syms env).1 = (run_insts cfg env m).1 ∨
        (cycle_body cfg syms env).1 = (run_insts cfg env m).1 ++
          [Event.sleep]) := by
  rcases hf : env.fetch with e | bars
  · left
    simp [cycle_body, hf]
  rcases hg : get_latest_bars syms bars with _ | m
  · right; left
    simp [cycle_body, hf, hg]
  rcases hie : m.isEmpty
  · have hne : m ≠ [] := by simpa using hie
    rcases hri : run_insts cfg env m with ⟨evs, oe⟩
    rcases oe with _ | e
    · refine Or.inr (Or.inr ⟨bars, m, rfl, hg, Or.inr ?_⟩)
      simp [cycle_body, hf, hg, hne, hri]
    · refine Or.inr (Or.inr ⟨bars, m, rfl, hg, Or.inl ?_⟩)
      simp [cycle_body, hf, hg, hne, hri]
  · right; left
    have hnil : m = [] := by simpa using hie
    simp [cycle_body, hf, hg, hnil]

/-- The events of one loop iteration: the cycle-body events, possibly
followed by the interrupt farewell or by the logged error and the sleep of
the `except Exception` handler. -/
theorem run_cycle_events (cfg : Config) (syms : List String)
    (env : CycleEnv) :
    (run_cycle cfg syms env).1 = (cycle_body cfg syms env).1 ∨
    (run_cycle cfg syms env).1 = (cycle_body cfg syms env).1 ++
      [Event.exiting] ∨
    ∃ msg, (run_cycle cfg syms env).1 = (cycle_body cfg syms env).1 ++
      [Event.errorLogged msg, Event.sleep] := by
  rcases hcb : cycle_body cfg syms env with ⟨evs, oe⟩
  rcases oe with _ | e
  · left
    simp [run_cycle, hcb]
  rcases e with _ | msg
  · right; left
    simp [run_cycle, hcb]
  · refine Or.inr (Or.inr ⟨msg, ?_⟩)
    simp [run_cycle, hcb]

/-! ## Claim theorems: gating invariant and bars map -/

/-- C3: in one poll cycle at most one order is submitted per instrument,
and an order is only ever submitted for an instrument whose gate-time
position query returned a list with no open position for it (so an open
position means execution is skipped, whatever the signal). -/
theorem run_cycle_order_invariant (cfg : Config) (syms : List String)
    (env : CycleEnv) (hnd : syms.Nodup) :
    (∀ s, ((run_cycle cfg syms env).1.filter (isSubmitFor s)).length ≤ 1) ∧
    (∀ req resp, Event.submitted req resp ∈ (run_cycle cfg syms env).1 →
      ∃ ps, env.positions req.symbol = Except.ok ps ∧
        already_open req.symbol ps = false) := by
  have hbody_le : ∀ s,
      ((cycle_body cfg syms env).1.filter (isSubmitFor s)).length ≤ 1 := by
    intro s
    rcases cycle_body_events cfg syms env with h | h |
      ⟨bars, m, hf, hg, h | h⟩ <;> rw [h]
    · simp
    · simp [isSubmitFor]
    · have hkeys : (m.map Prod.fst).Nodup := by
        rw [get_latest_bars_keys syms bars m hg]
        exact hnd.filter _
      exact run_insts_filter_le cfg env m s hkeys
    · rw [List.filter_append, List.length_append]
      have h1 : (([Event.sleep]).filter (isSubmitFor s)).length = 0 := by
        simp [isSubmitFor]
      have hkeys : (m.map Prod.fst).Nodup := by
        rw [get_latest_bars_keys syms bars m hg]
        exact hnd.filter _
      have h2 := run_insts_filter_le cfg env m s hkeys
      omega
  have hbody_mem : ∀ req resp,
      Event.submitted req resp ∈ (cycle_body cfg syms env).1 →
      ∃ ps, env.positions req.symbol = Except.ok ps ∧
        already_open req.symbol ps = false := by
    intro req resp hmem
    rcases cycle_body_events cfg syms env with h | h |
      ⟨bars, m, hf, hg, h | h⟩ <;> rw [h] at hmem
    · simp at hmem
    · simp at hmem
    · obtain ⟨sym, df, hl, hstep⟩ := run_insts_mem cfg env m _ hmem
      obtain ⟨hsym, ps, hps, ho⟩ :=
        step_submitted_gate cfg env sym df req resp hstep
      rw [hsym]
      exact ⟨ps, hps, ho⟩
    · rcases List.mem_append.mp hmem with hmem1 | hmem1
      · obtain ⟨sym, df, hl, hstep⟩ := run_insts_mem cfg env m _ hmem1
        obtain ⟨hsym, ps, hps, ho⟩ :=
          step_submitted_gate cfg env sym df req resp hstep
        rw [hsym]
        exact ⟨ps, hps, ho⟩
      · simp at hmem1
  constructor
  · intro s
    rcases run_cycle_events cfg syms env with h | h | ⟨msg, h⟩ <;> rw [h]
    · exact hbody_le s
    · rw [List.filter_append, List.length_append]
      have h1 : (([Event.exiting]).filter (isSubmitFor s)).length = 0 := by
        simp [isSubmitFor]
      have h2 := hbody_le s
      omega
    · rw [List.filter_append, List.length_append]
      have h1 : (([Event.errorLogged msg, Event.sleep]).filter
          (isSubmitFor s)).length = 0 := by
        simp [isSubmitFor]
      have h2 := hbody_le s
      omega
  · intro req resp hmem
    rcases run_cycle_events cfg syms env with h | h | ⟨msg, h⟩ <;>
      rw [h] at hmem
    · exact hbody_mem req resp hmem
    · rcases List.mem_append.mp hmem with h1 | h1
      · exact hbody_mem req resp h1
      · simp at h1
    · rcases List.mem_append.mp hmem with h1 | h1
      · exact hbody_mem req resp h1
      · simp at h1

/-- Witness for C3: a cycle against a broker reporting an open `"AAPL"`
position. -/
theorem run_cycle_order_invariant_witness :
    (∀ s, ((run_cycle cexCfg ["AAPL", "MSFT"] envOpenAAPL).1.filter
      (isSubmitFor s)).length ≤ 1) ∧
    (∀ req resp, Event.submitted req resp ∈
        (run_cycle cexCfg ["AAPL", "MSFT"] envOpenAAPL).1 →
      ∃ ps, envOpenAAPL.positions req.symbol = Except.ok ps ∧
        already_open req.symbol ps = false) :=
  run_cycle_order_invariant cexCfg ["AAPL", "MSFT"] envOpenAAPL (by decide)

/-- The divergent corner of the tuple-key index test: on a frame with
exactly one row per present symbol the level is unique, every tuple key
hash-misses, and the map is empty — `main` then takes the
`No bars yet...` branch even though bars were returned. -/
theorem get_latest_bars_unique_level_drops :
    get_latest_bars ["AAPL", "MSFT"] [("AAPL", 1), ("MSFT", 1)] = some []
    := rfl

/-! ## Claim theorems: fault handling -/

/-- C6: a non-interrupt exception reaching the cycle boundary is logged,
followed by the poll-interval sleep, and the loop proceeds to the next
cycle — one failed cycle never stops the loop. -/
theorem cycle_exception_contained (cfg : Config) (syms : List String)
    (env : CycleEnv) (evs : List Event) (msg : String)
    (h : cycle_body cfg syms env = (evs, some (Exn.exn msg))) :
    run_cycle cfg syms env =
      (evs ++ [Event.errorLogged msg, Event.sleep], false) ∧
    ∀ rest, run_loop cfg syms (env :: rest) =
      (evs ++ [Event.errorLogged msg, Event.sleep]) ++
        run_loop cfg syms rest := by
  have h1 : run_cycle cfg syms env =
      (evs ++ [Event.errorLogged msg, Event.sleep], false) := by
    simp [run_cycle, h]
  refine ⟨h1, fun rest => ?_⟩
  simp only [run_loop]
  rw [h1]
  simp

/-- Witness for C6: the data fetch raises; the loop logs, sleeps, and
resumes with the next cycle. -/
theorem cycle_exception_contained_witness :
    run_cycle cexCfg ["AAPL", "MSFT"] envFetchRaises =
      ([] ++ [Event.errorLogged "data fetch failed", Event.sleep], false) ∧
    ∀ rest, run_loop cexCfg ["AAPL", "MSFT"] (envFetchRaises :: rest) =
      ([] ++ [Event.errorLogged "data fetch failed", Event.sleep]) ++
        run_loop cexCfg ["AAPL", "MSFT"] rest :=
  cycle_exception_contained cexCfg ["AAPL", "MSFT"] envFetchRaises []
    "data fetch failed" rfl

/-- C9: when the batched fetch yields no data (`bars_map` falsy — the
frame was empty, or no requested symbol had rows), the cycle prints the
no-data line, sleeps, performs no per-instrument processing, and the loop
continues with the next cycle. -/
theorem no_data_noop_cycle (cfg : Config) (syms : List String)
    (env : CycleEnv) (bars : List (String × ℚ))
    (hf : env.fetch = Except.ok bars)
    (hnone : get_latest_bars syms bars = none ∨
      get_latest_bars syms bars = some []) :
    run_cycle cfg syms env = ([Event.noBars, Event.sleep], false) ∧
    ∀ rest, run_loop cfg syms (env :: rest) =
      [Event.noBars, Event.sleep] ++ run_loop cfg syms rest := by
  have h1 : cycle_body cfg syms env = ([Event.noBars, Event.sleep], none)
      := by
    rcases hnone with hn | hn <;> simp [cycle_body, hf, hn]
  have h2 : run_cycle cfg syms env = ([Event.noBars, Event.sleep], false)
      := by
    simp [run_cycle, h1]
  refine ⟨h2, fun rest => ?_⟩
  simp only [run_loop]
  rw [h2]
  simp

/-- Witness for C9: an empty frame. -/
theorem no_data_noop_cycle_witness :
    run_cycle cexCfg ["AAPL", "MSFT"] envNoData =
      ([Event.noBars, Event.sleep], false) ∧
    ∀ rest, run_loop cexCfg ["AAPL", "MSFT"] (envNoData :: rest) =
      [Event.noBars, Event.sleep] ++ run_loop cexCfg ["AAPL", "MSFT"] rest
    :=
  no_data_noop_cycle cexCfg ["AAPL", "MSFT"] envNoData [] rfl (Or.inl rfl)

/-- C8: when the tradable filter leaves no symbols, `main` prints the
diagnostic and returns before the loop — whatever the collaborators would
have answered, no fetch, gate, or order ever happens. -/
theorem empty_universe_returns (cfg : Config) (assets : List Asset)
    (envs : List CycleEnv) (h : ensure_tradable SYMBOLS assets = []) :
    main cfg assets envs = [Event.noTradable] := by
  simp [main, h]

/-- Witness for C8: the broker reports `"AAPL"` as non-tradable and knows
nothing of `"MSFT"`. -/
theorem empty_universe_returns_witness :
    main defaultCfg [⟨"AAPL", false⟩] [envNoData] = [Event.noTradable] :=
  empty_universe_returns defaultCfg [⟨"AAPL", false⟩] [envNoData]
    (by simp [ensure_tradable, tradable_lookup, SYMBOLS])

end Mvp
